import Mathlib

/-!
Verification of `dspy/utils/usage_tracker.py`.

A Python usage record (`dict`) is modelled as an insertion-ordered
association list of string keys and `Value`s, where `Value` covers the
value shapes the tracker manipulates: integers, booleans, strings,
`None`, and nested records.
-/

namespace DspyUsage

/-! ### Definitions: the data model and the operations of
`dspy/utils/usage_tracker.py` -/

/-- The type of Python values stored in a usage record: `int`, `bool`,
`str`, `None`, or a nested `dict` (as insertion-ordered key/value list). -/
inductive Value where
  | vint (n : Int)
  | vbool (b : Bool)
  | vstr (s : String)
  | vnone
  | vdict (entries : List (String × Value))

/-- A Python `dict` used as a usage record: insertion-ordered list of
key/value pairs (a real `dict` additionally has pairwise-distinct keys,
stated where needed via `NodupKeys`). -/
abbrev Record := List (String × Value)

/-- Python dict lookup `d[k]` / `d.get(k)`: the value of the first pair
whose key equals `k`. -/
def lookup? {β : Type} (l : List (String × β)) (k : String) : Option β :=
  match l.find? (fun p => p.1 == k) with
  | some p => some p.2
  | none => none

/-- The list of keys of a record / association list. -/
def keys {β : Type} (l : List (String × β)) : List String :=
  l.map Prod.fst

/-- A real Python dict has pairwise-distinct keys. -/
def NodupKeys {β : Type} (l : List (String × β)) : Prop :=
  (keys l).Nodup

instance {β : Type} (l : List (String × β)) : Decidable (NodupKeys l) := by
  unfold NodupKeys; infer_instance

/-- Python in-place update `d[k] = v` for a key already present: every pair
whose key is `k` is replaced in place (for a dict, there is exactly one). -/
def setKey {β : Type} (l : List (String × β)) (k : String) (v : β) :
    List (String × β) :=
  l.map (fun p => if p.1 == k then (k, v) else p)

/-- Python truthiness of a `Value` (`bool(v)`). -/
def truthy : Value → Bool
  | .vint n => n != 0
  | .vbool b => b
  | .vstr s => s != ""
  | .vnone => false
  | .vdict d => !d.isEmpty

/-- Whether a value is a Python `bool` (`isinstance(v, bool)`). -/
def Value.isBool : Value → Bool
  | .vbool _ => true
  | _ => false

/-- Whether a value is a Python `dict` (`isinstance(v, dict)`). -/
def Value.isDict : Value → Bool
  | .vdict _ => true
  | _ => false

/-- Whether a value is a Python `str`. -/
def Value.isStr : Value → Bool
  | .vstr _ => true
  | _ => false

/-- The coercion `x if x is not None else 0` applied to both scalar
operands before the addition attempt in `_merge_usage_entries`. -/
def coerceNull : Value → Value
  | .vnone => .vint 0
  | v => v

/-- The `try: result[k] = result_value + v_value except: ...` step of
`_merge_usage_entries`, on already-coerced scalar operands: `r` is
`result[k]` (from the second entry) and `v` comes from the first entry.
Python `int + int` adds, `str + str` concatenates, and a mixed
`int`/`str` addition raises, in which case the code keeps
`result_value` (which is never `None` after coercion). -/
def addOrPrefer (r v : Value) : Value :=
  match r, v with
  | .vint a, .vint b => .vint (a + b)
  | .vstr a, .vstr b => .vstr (a ++ b)
  | _, _ => r

mutual

/-- Per-key combination in `_merge_usage_entries` for a key present in
both entries: `v` is `usage_entry1`'s value, `r` is `result[k]` (from
`usage_entry2`). Mirrors the `isinstance` branch ladder of the source. -/
def mergeValue (v r : Value) : Value :=
  match v, r with
  | .vdict d1, .vdict d2 => .vdict (merge_usage_entries d1 d2)
  | .vdict d1, _ => .vdict d1
  | _, .vdict d2 => .vdict d2
  | v, r =>
    if v.isBool || r.isBool then .vbool (truthy v || truthy r)
    else addOrPrefer (coerceNull r) (coerceNull v)
termination_by (sizeOf v, 2)

/-- `UsageTracker._merge_usage_entries` restricted to two present (dict)
arguments: empty-entry short circuits, then the loop over
`usage_entry1.items()` into `result = dict(usage_entry2)`. -/
def merge_usage_entries (e1 e2 : Record) : Record :=
  if e1.isEmpty then e2
  else if e2.isEmpty then e1
  else mergeLoop e1 e2
termination_by (sizeOf e1, 1)

/-- The `for k, v in usage_entry1.items()` loop of
`_merge_usage_entries`, threading the mutable `result` dict. -/
def mergeLoop : Record → Record → Record
  | [], result => result
  | (k, v) :: rest, result =>
    match lookup? result k with
    | some r => mergeLoop rest (setKey result k (mergeValue v r))
    | none => mergeLoop rest (result ++ [(k, v)])
termination_by l result => (sizeOf l, 0)

end

/-- Per-key result of `_merge_usage_entries` expressed over optional
lookups: the first component is `usage_entry1`'s binding, the second is
`usage_entry2`'s. -/
def combineAt : Option Value → Option Value → Option Value
  | some v, some r => some (mergeValue v r)
  | some v, none => some v
  | none, o => o

/-- A Python exception kind raised by `dict(x)` on a non-dict argument. -/
inductive PyErr where
  | typeError
  | valueError
deriving DecidableEq

/-- Python `dict(x)`: succeeds (as a value-equal copy) on a dict, and on
the empty string; raises `ValueError` on a non-empty string and
`TypeError` on the other value shapes handled here. -/
def dictOfValue : Value → Except PyErr Record
  | .vdict d => .ok d
  | .vstr s => if s = "" then .ok [] else .error .valueError
  | _ => .error .typeError

/-- One `if result.get(key): result[key] = dict(result[key])` step of
`UsageTracker._flatten_usage_entry`. -/
def copyDetail (key : String) (e : Record) : Except PyErr Record :=
  match lookup? e key with
  | some v =>
    if truthy v then
      match dictOfValue v with
      | .ok d => .ok (setKey e key (.vdict d))
      | .error err => .error err
    else .ok e
  | none => .ok e

/-- `UsageTracker._flatten_usage_entry`: copies the record and
re-wraps the two reserved detail fields with `dict(...)` when truthy. -/
def flatten_usage_entry (e : Record) : Except PyErr Record := do
  let r1 ← copyDetail "completion_tokens_details" e
  copyDetail "prompt_tokens_details" r1

/-- The two reserved detail fields re-wrapped by `_flatten_usage_entry`. -/
def detailKeys : List String := ["completion_tokens_details", "prompt_tokens_details"]

/-- Every truthy value stored under a reserved detail key is a nested
record, so `dict(...)` in `_flatten_usage_entry` cannot raise. -/
def detailOk (e : Record) : Bool :=
  detailKeys.all fun key =>
    match lookup? e key with
    | some v => !truthy v || v.isDict
    | none => true

/-- `UsageTracker.usage_data`: an insertion-ordered mapping from model
identifier to the list of stored (flattened) usage records. -/
abbrev Store := List (String × List Record)

/-- The `defaultdict` effect of evaluating `self.usage_data[lm]`: an
absent key is bound to a fresh empty list. -/
def ensureKey (s : Store) (lm : String) : Store :=
  if (lookup? s lm).isSome then s else s ++ [(lm, [])]

/-- Appending a record to the list stored under `lm`. -/
def storeAppend (s : Store) (lm : String) (rec : Record) : Store :=
  s.map (fun p => if p.1 == lm then (p.1, p.2 ++ [rec]) else p)

/-- `UsageTracker.add_usage`: a no-op on an empty record; otherwise
evaluates `self.usage_data[lm].append(self._flatten_usage_entry(e))`,
which first materializes the `defaultdict` entry and then flattens the
record (possibly raising). Returns the raised exception, if any,
together with the resulting store. -/
def add_usage (s : Store) (lm : String) (e : Record) : Option PyErr × Store :=
  if e.isEmpty then (none, s)
  else
    match flatten_usage_entry e with
    | .ok fe => (none, storeAppend (ensureKey s lm) lm fe)
    | .error err => (some err, ensureKey s lm)

/-- The per-model fold of `get_total_tokens`: `total_usage = {}` then
`total_usage = merge(total_usage, usage_entry)` over the stored list. -/
def totalFor (entries : List Record) : Record :=
  entries.foldl (fun acc e => merge_usage_entries acc e) []

/-- `UsageTracker.get_total_tokens`: per-model merge-reduction of the
stored records. -/
def get_total_tokens (s : Store) : List (String × Record) :=
  s.map (fun p => (p.1, totalFor p.2))

/-- `get_total_tokens` as a state transformer on the store: the method
body only reads `self.usage_data` (all writes go to fresh local dicts),
so its store component passes through unchanged. -/
def get_total_tokens_st (s : Store) : List (String × Record) × Store :=
  (get_total_tokens s, s)

/-- The ambient `dspy.settings` state: the `usage_tracker` slot this
module manipulates, plus all remaining configuration, abstracted as
`rest`. -/
structure Settings (ρ : Type) where
  usage_tracker : Option Store
  rest : ρ

/-- Modelled from the spec: `settings.context(usage_tracker=t)` (defined
in `dspy/dsp/utils/settings.py`, which is not under `src/`) publishes the
override for the duration of the scope body and restores the previous
ambient settings state exactly on every exit path, whether the body
completed normally (`Except.ok`) or raised (`Except.error`). -/
def settingsContext {ρ ε α : Type} (outer : Settings ρ) (t : Option Store)
    (body : Settings ρ → Except ε α × Settings ρ) : Except ε α × Settings ρ :=
  let entered : Settings ρ := { outer with usage_tracker := t }
  let r := (body entered).1
  (r, outer)

/-- `track_usage`: constructs a fresh `UsageTracker` (empty store),
publishes it via `settings.context`, and yields it to the body. -/
def track_usage {ρ ε α : Type} (s : Settings ρ)
    (body : Store → Settings ρ → Except ε α × Settings ρ) :
    Except ε α × Settings ρ :=
  let tracker : Store := []
  settingsContext s (some tracker) (body tracker)

/-- The integer carried by a `Value`, for stating sums. -/
def intOf : Value → Int
  | .vint n => n
  | _ => 0

/-- Whether a value is a scalar integer. -/
def isIntValue : Value → Bool
  | .vint _ => true
  | _ => false

/-- The values stored under key `k` across a list of records, in order. -/
def vals (es : List Record) (k : String) : List Value :=
  es.filterMap (fun e => lookup? e k)

/-- The integer sum of a list of values. -/
def intSum (vs : List Value) : Int :=
  (vs.map intOf).sum

/-- Every occurrence of key `k` in the records is a scalar integer. -/
def allIntAt (es : List Record) (k : String) : Bool :=
  es.all fun e =>
    match lookup? e k with
    | some v => isIntValue v
    | none => true

/-- Accumulator bookkeeping for the fold: `m` is the integer currently
stored at the key (if any), `vs` the remaining occurrences. -/
def sumOpt (m : Option Int) (vs : List Value) : Option Int :=
  match m with
  | some a => some (a + intSum vs)
  | none => if vs.isEmpty then none else some (intSum vs)

/-- Replaying a list of `add_usage` calls on a fresh tracker. -/
def runCalls (calls : List (String × Record)) : Store :=
  calls.foldl (fun st c => (add_usage st c.1 c.2).2) []

/-- The effect of one `add_usage` call on the list stored for a single
model identifier. -/
def addForModel (cur : Option (List Record)) (e : Record) :
    Option (List Record) :=
  if e.isEmpty then cur
  else
    match flatten_usage_entry e with
    | .ok fe => some (cur.getD [] ++ [fe])
    | .error _ => some (cur.getD [])

/-- Python `dict(x)` on a possibly-`None` dict argument: raises
`TypeError` on `None`, copies otherwise. -/
def dictOfOption : Option Record → Except PyErr Record
  | some d => .ok d
  | none => .error .typeError

/-- `UsageTracker._merge_usage_entries` including possibly-absent
(`None`) arguments, following the source's guard chain
(`usage_entry1 is None or len(usage_entry1) == 0`, etc.). -/
def merge_usage_entries_opt (e1 e2 : Option Record) : Except PyErr Record :=
  match e1 with
  | none => dictOfOption e2
  | some d1 =>
    if d1.isEmpty then dictOfOption e2
    else
      match e2 with
      | none => .ok d1
      | some d2 => .ok (merge_usage_entries d1 d2)

/-- Every record stored in the store is non-empty. -/
def StoredNonempty (s : Store) : Prop :=
  ∀ p ∈ s, ∀ e ∈ p.2, e ≠ []

/-! ### Lemmas -/

theorem lookup?_some_mem {β : Type} (l : List (String × β)) (k : String)
    (v : β) (h : lookup? l k = some v) : ∃ p ∈ l, p.2 = v := by
  unfold lookup? at h
  cases hf : l.find? (fun p => p.1 == k) with
  | none => rw [hf] at h; cases h
  | some p =>
    rw [hf] at h
    injection h with h2
    exact ⟨p, List.mem_of_find?_eq_some hf, h2⟩

theorem lookup?_nil {β : Type} (k : String) :
    lookup? ([] : List (String × β)) k = none := rfl

theorem lookup?_cons {β : Type} (k0 k : String) (v : β)
    (l : List (String × β)) :
    lookup? ((k0, v) :: l) k = if k0 = k then some v else lookup? l k := by
  simp only [lookup?, List.find?]
  by_cases h : k0 = k
  · simp [h]
  · simp [h, beq_eq_false_iff_ne.mpr h]

theorem lookup?_append {β : Type} (l1 l2 : List (String × β)) (k : String) :
    lookup? (l1 ++ l2) k =
      match lookup? l1 k with
      | some v => some v
      | none => lookup? l2 k := by
  induction l1 with
  | nil => simp [lookup?_nil]
  | cons p t ih =>
    obtain ⟨k0, v⟩ := p
    by_cases h : k0 = k <;> simp [lookup?_cons, h, ih]

theorem lookup?_eq_none_iff {β : Type} (l : List (String × β)) (k : String) :
    lookup? l k = none ↔ k ∉ keys l := by
  induction l with
  | nil => simp [lookup?_nil, keys]
  | cons p t ih =>
    obtain ⟨k0, v⟩ := p
    by_cases h : k0 = k <;> simp [lookup?_cons, h, keys, ih] <;> tauto

theorem lookup?_isSome_iff {β : Type} (l : List (String × β)) (k : String) :
    (lookup? l k).isSome ↔ k ∈ keys l := by
  cases h : lookup? l k with
  | none => simp [(lookup?_eq_none_iff l k).mp h]
  | some v =>
    have h2 : ¬ lookup? l k = none := by simp [h]
    rw [lookup?_eq_none_iff] at h2
    simp [not_not.mp h2]

theorem setKey_cons {β : Type} (k0 k : String) (v0 v : β)
    (t : List (String × β)) :
    setKey ((k0, v0) :: t) k v =
      (if k0 = k then (k, v) else (k0, v0)) :: setKey t k v := by
  by_cases h : k0 = k <;> simp [setKey, h]

theorem keys_setKey {β : Type} (l : List (String × β)) (k : String) (v : β) :
    keys (setKey l k v) = keys l := by
  induction l with
  | nil => rfl
  | cons p t ih =>
    obtain ⟨k0, v0⟩ := p
    rw [setKey_cons]
    by_cases h : k0 = k <;> simp [keys, h] <;> simpa [keys] using ih

theorem lookup?_setKey_self {β : Type} (l : List (String × β)) (k : String)
    (v : β) :
    lookup? (setKey l k v) k = (lookup? l k).map (fun _ => v) := by
  induction l with
  | nil => rfl
  | cons p t ih =>
    obtain ⟨k0, v0⟩ := p
    rw [setKey_cons]
    by_cases h : k0 = k
    · subst h
      simp [lookup?_cons]
    · rw [if_neg h, lookup?_cons, lookup?_cons, if_neg h, if_neg h, ih]

theorem lookup?_setKey_ne {β : Type} (l : List (String × β)) (k k' : String)
    (v : β) (h : k' ≠ k) :
    lookup? (setKey l k v) k' = lookup? l k' := by
  induction l with
  | nil => rfl
  | cons p t ih =>
    obtain ⟨k0, v0⟩ := p
    rw [setKey_cons]
    by_cases h0 : k0 = k
    · subst h0
      rw [if_pos rfl, lookup?_cons, lookup?_cons,
        if_neg (fun hh => h hh.symm), if_neg (fun hh => h hh.symm), ih]
    · rw [if_neg h0, lookup?_cons, lookup?_cons, ih]

theorem setKey_of_not_mem {β : Type} (l : List (String × β)) (k : String)
    (v : β) (h : k ∉ keys l) :
    setKey l k v = l := by
  induction l with
  | nil => rfl
  | cons p t ih =>
    obtain ⟨k0, v0⟩ := p
    simp only [keys, List.map_cons, List.mem_cons, not_or] at h
    rw [setKey_cons, if_neg (fun hh => h.1 hh.symm),
      ih (by simpa [keys] using h.2)]

theorem nodupKeys_of_cons {β : Type} {k0 : String} {v0 : β}
    {t : List (String × β)} (hnd : NodupKeys ((k0, v0) :: t)) :
    k0 ∉ keys t ∧ NodupKeys t := by
  simpa [NodupKeys, keys, List.nodup_cons] using hnd

theorem setKey_eq_self {β : Type} (l : List (String × β)) (k : String)
    (v : β) (hnd : NodupKeys l) (h : lookup? l k = some v) :
    setKey l k v = l := by
  induction l with
  | nil => rfl
  | cons p t ih =>
    obtain ⟨k0, v0⟩ := p
    obtain ⟨hk0, hndt⟩ := nodupKeys_of_cons hnd
    by_cases h0 : k0 = k
    · subst h0
      rw [lookup?_cons, if_pos rfl] at h
      obtain rfl : v0 = v := by injection h
      rw [setKey_cons, if_pos rfl, setKey_of_not_mem t k0 v0 hk0]
    · rw [lookup?_cons, if_neg h0] at h
      rw [setKey_cons, if_neg h0, ih hndt h]

theorem length_setKey {β : Type} (l : List (String × β)) (k : String) (v : β) :
    (setKey l k v).length = l.length := by
  simp [setKey]

theorem lookup?_map_values {β γ : Type} (l : List (String × β)) (f : β → γ)
    (k : String) :
    lookup? (l.map (fun p => (p.1, f p.2))) k = (lookup? l k).map f := by
  induction l with
  | nil => rfl
  | cons p t ih =>
    obtain ⟨k0, v0⟩ := p
    by_cases h : k0 = k <;> simp [lookup?_cons, h, ih]

theorem lookup?_mergeLoop (a : Record) (hna : NodupKeys a) :
    ∀ (result : Record) (k : String),
      lookup? (mergeLoop a result) k = combineAt (lookup? a k) (lookup? result k) := by
  induction a with
  | nil =>
    intro result k
    simp [mergeLoop, lookup?_nil, combineAt]
  | cons p rest ih =>
    intro result k
    obtain ⟨k0, v0⟩ := p
    obtain ⟨hk0, hnd⟩ := nodupKeys_of_cons hna
    rw [mergeLoop]
    cases hr : lookup? result k0 with
    | some r =>
      rw [ih hnd]
      by_cases h : k0 = k
      · subst h
        rw [(lookup?_eq_none_iff rest k0).mpr hk0, lookup?_cons, if_pos rfl]
        rw [lookup?_setKey_self, hr]
        rfl
      · rw [lookup?_setKey_ne result k0 k (mergeValue v0 r) (fun hh => h hh.symm)]
        rw [lookup?_cons, if_neg h]
    | none =>
      rw [ih hnd]
      by_cases h : k0 = k
      · subst h
        rw [(lookup?_eq_none_iff rest k0).mpr hk0, lookup?_cons, if_pos rfl]
        rw [lookup?_append, hr]
        simp [lookup?_cons, combineAt]
      · rw [lookup?_cons, if_neg h, lookup?_append]
        cases hk : lookup? result k with
        | some w => rfl
        | none => simp [lookup?_cons, h, lookup?_nil]

theorem lookup?_merge (a b : Record) (hna : NodupKeys a) (k : String) :
    lookup? (merge_usage_entries a b) k = combineAt (lookup? a k) (lookup? b k) := by
  rw [merge_usage_entries]
  by_cases h1 : a.isEmpty
  · obtain rfl : a = [] := by simpa [List.isEmpty_iff] using h1
    simp [lookup?_nil, combineAt]
  · rw [if_neg h1]
    by_cases h2 : b.isEmpty
    · obtain rfl : b = [] := by simpa [List.isEmpty_iff] using h2
      rw [if_pos h2, lookup?_nil]
      cases hk : lookup? a k <;> rfl
    · rw [if_neg h2]
      exact lookup?_mergeLoop a hna b k

theorem nodupKeys_mergeLoop (a : Record) :
    ∀ (result : Record), NodupKeys result → NodupKeys (mergeLoop a result) := by
  induction a with
  | nil =>
    intro result h
    simpa [mergeLoop] using h
  | cons p rest ih =>
    intro result h
    obtain ⟨k0, v0⟩ := p
    rw [mergeLoop]
    cases hr : lookup? result k0 with
    | some r =>
      exact ih _ (by simpa [NodupKeys, keys_setKey] using h)
    | none =>
      refine ih _ ?_
      have hk : k0 ∉ keys result := (lookup?_eq_none_iff result k0).mp hr
      simpa [NodupKeys, keys, List.nodup_append] using And.intro h hk

theorem nodupKeys_merge (a b : Record) (hna : NodupKeys a)
    (hnb : NodupKeys b) : NodupKeys (merge_usage_entries a b) := by
  rw [merge_usage_entries]
  by_cases h1 : a.isEmpty
  · simpa [h1] using hnb
  · rw [if_neg h1]
    by_cases h2 : b.isEmpty
    · simpa [h2] using hna
    · rw [if_neg h2]
      exact nodupKeys_mergeLoop a b hnb

theorem copyDetail_ok_eq (key : String) (e fe : Record) (hnd : NodupKeys e)
    (h : copyDetail key e = .ok fe) : fe = e := by
  unfold copyDetail at h
  cases hv : lookup? e key with
  | none =>
    rw [hv] at h
    dsimp only at h
    injection h with h2
    exact h2.symm
  | some v =>
    rw [hv] at h
    dsimp only at h
    by_cases ht : truthy v
    · rw [if_pos ht] at h
      cases hd : dictOfValue v with
      | ok d =>
        rw [hd] at h
        injection h with h2
        have hveq : v = .vdict d := by
          rcases v with n | b | s | _ | d2
          · simp [dictOfValue] at hd
          · simp [dictOfValue] at hd
          · have hs : s ≠ "" := by simpa [truthy] using ht
            simp [dictOfValue, hs] at hd
          · simp [dictOfValue] at hd
          · simp [dictOfValue] at hd
            rw [hd]
        have hv2 : lookup? e key = some (.vdict d) := by
          rw [← hveq]; exact hv
        rw [← h2]
        exact setKey_eq_self e key (.vdict d) hnd hv2
      | error err =>
        rw [hd] at h
        cases h
    · rw [if_neg ht] at h
      injection h with h2
      exact h2.symm

theorem flatten_ok_eq (e fe : Record) (hnd : NodupKeys e)
    (h : flatten_usage_entry e = .ok fe) : fe = e := by
  unfold flatten_usage_entry at h
  cases h1 : copyDetail "completion_tokens_details" e with
  | ok r1 =>
    rw [h1] at h
    simp only [bind, Except.bind] at h
    have h2 := copyDetail_ok_eq _ _ _ hnd h1
    subst h2
    exact copyDetail_ok_eq _ _ _ hnd h
  | error err =>
    rw [h1] at h
    simp only [bind, Except.bind] at h
    cases h

theorem copyDetail_ok_length (key : String) (e fe : Record)
    (h : copyDetail key e = .ok fe) : fe.length = e.length := by
  unfold copyDetail at h
  cases hv : lookup? e key with
  | none =>
    rw [hv] at h
    dsimp only at h
    injection h with h2
    rw [← h2]
  | some v =>
    rw [hv] at h
    dsimp only at h
    by_cases ht : truthy v
    · rw [if_pos ht] at h
      cases hd : dictOfValue v with
      | ok d =>
        rw [hd] at h
        injection h with h2
        rw [← h2, length_setKey]
      | error err =>
        rw [hd] at h
        cases h
    · rw [if_neg ht] at h
      injection h with h2
      rw [← h2]

theorem flatten_ok_length (e fe : Record)
    (h : flatten_usage_entry e = .ok fe) : fe.length = e.length := by
  unfold flatten_usage_entry at h
  cases h1 : copyDetail "completion_tokens_details" e with
  | ok r1 =>
    rw [h1] at h
    simp only [bind, Except.bind] at h
    exact (copyDetail_ok_length _ _ _ h).trans (copyDetail_ok_length _ _ _ h1)
  | error err =>
    rw [h1] at h
    simp only [bind, Except.bind] at h
    cases h

theorem copyDetail_ok_of (key : String) (e : Record)
    (h : (match lookup? e key with
          | some v => !truthy v || v.isDict
          | none => true) = true) :
    ∃ fe, copyDetail key e = .ok fe ∧
      ∀ k2, k2 ≠ key → lookup? fe k2 = lookup? e k2 := by
  cases hv : lookup? e key with
  | none =>
    refine ⟨e, ?_, fun _ _ => rfl⟩
    simp [copyDetail, hv]
  | some v =>
    rw [hv] at h
    by_cases ht : truthy v
    · have hd : v.isDict = true := by simpa [ht] using h
      rcases v with n | b | s | _ | d <;> simp [Value.isDict] at hd
      refine ⟨setKey e key (.vdict d), ?_,
        fun k2 hk => lookup?_setKey_ne e key k2 (.vdict d) hk⟩
      simp [copyDetail, hv, ht, dictOfValue]
    · refine ⟨e, ?_, fun _ _ => rfl⟩
      simp [copyDetail, hv, ht]

theorem flatten_ok_of_detailOk (e : Record) (h : detailOk e = true) :
    ∃ fe, flatten_usage_entry e = .ok fe := by
  have hsplit : (match lookup? e "completion_tokens_details" with
      | some v => !truthy v || v.isDict
      | none => true) = true
      ∧ (match lookup? e "prompt_tokens_details" with
      | some v => !truthy v || v.isDict
      | none => true) = true := by
    simpa [detailOk, detailKeys] using h
  obtain ⟨fe1, hfe1, hlk⟩ :=
    copyDetail_ok_of "completion_tokens_details" e hsplit.1
  obtain ⟨fe2, hfe2, _⟩ := copyDetail_ok_of "prompt_tokens_details" fe1
    (by rw [hlk "prompt_tokens_details" (by decide)]; exact hsplit.2)
  refine ⟨fe2, ?_⟩
  unfold flatten_usage_entry
  rw [hfe1]
  simpa only [bind, Except.bind] using hfe2

theorem mergeValue_int (a b : Int) :
    mergeValue (.vint a) (.vint b) = .vint (b + a) := by
  simp [mergeValue, Value.isBool, coerceNull, addOrPrefer]

theorem foldl_merge_lookup_int (k : String) (es : List Record) :
    ∀ (acc : Record) (m : Option Int),
      (∀ e ∈ es, NodupKeys e) →
      allIntAt es k = true →
      NodupKeys acc →
      lookup? acc k = m.map Value.vint →
      lookup? (es.foldl (fun a e => merge_usage_entries a e) acc) k
        = (sumOpt m (vals es k)).map Value.vint := by
  induction es with
  | nil =>
    intro acc m _ _ _ hm
    cases m with
    | none => simpa [sumOpt, vals] using hm
    | some a => simpa [sumOpt, vals, intSum] using hm
  | cons e rest ih =>
    intro acc m hnd hall hacc hm
    have hnde : NodupKeys e := hnd e (by simp)
    have hndrest : ∀ x ∈ rest, NodupKeys x := fun x hx => hnd x (by simp [hx])
    have hall2 : (match lookup? e k with
        | some v => isIntValue v
        | none => true) = true ∧ allIntAt rest k = true := by
      simpa [allIntAt, List.all_cons] using hall
    rw [List.foldl_cons]
    have hmerge := lookup?_merge acc e hacc k
    cases hv : lookup? e k with
    | none =>
      have hvals : vals (e :: rest) k = vals rest k := by
        simp [vals, List.filterMap_cons, hv]
      rw [hvals]
      refine ih _ m hndrest hall2.2 (nodupKeys_merge acc e hacc hnde) ?_
      rw [hmerge, hv, hm]
      cases m <;> rfl
    | some v =>
      have hint : isIntValue v = true := by
        have h2 := hall2.1
        rw [hv] at h2
        exact h2
      obtain ⟨n, rfl⟩ : ∃ n, v = Value.vint n := by
        rcases v with n | b | s | _ | d
        · exact ⟨n, rfl⟩
        · simp [isIntValue] at hint
        · simp [isIntValue] at hint
        · simp [isIntValue] at hint
        · simp [isIntValue] at hint
      have hvals : vals (e :: rest) k = Value.vint n :: vals rest k := by
        simp [vals, List.filterMap_cons, hv]
      rw [hvals]
      cases m with
      | some a =>
        have hm2 : lookup? (merge_usage_entries acc e) k
            = some (Value.vint (n + a)) := by
          rw [hmerge, hv, hm]
          show combineAt (some (Value.vint a)) (some (Value.vint n)) = _
          simp [combineAt, mergeValue_int]
        rw [ih _ (some (n + a)) hndrest hall2.2
          (nodupKeys_merge acc e hacc hnde) hm2]
        have heq : sumOpt (some (n + a)) (vals rest k)
            = sumOpt (some a) (Value.vint n :: vals rest k) := by
          simp [sumOpt, intSum, intOf] <;> ring
        rw [heq]
      | none =>
        have hm2 : lookup? (merge_usage_entries acc e) k
            = some (Value.vint n) := by
          rw [hmerge, hv, hm]
          rfl
        rw [ih _ (some n) hndrest hall2.2
          (nodupKeys_merge acc e hacc hnde) hm2]
        simp [sumOpt, intSum, intOf]

theorem totalFor_lookup_int (es : List Record) (k : String)
    (hnd : ∀ e ∈ es, NodupKeys e) (hall : allIntAt es k = true)
    (hocc : vals es k ≠ []) :
    lookup? (totalFor es) k = some (.vint (intSum (vals es k))) := by
  have hfold := foldl_merge_lookup_int k es [] none hnd hall
    (by simp [NodupKeys, keys]) rfl
  have hne : ¬ (vals es k).isEmpty = true := by
    simpa [List.isEmpty_iff] using hocc
  rw [totalFor, hfold, sumOpt, if_neg hne]
  rfl

theorem lookup?_ensureKey (s : Store) (lm B : String) :
    lookup? (ensureKey s lm) B =
      if lm = B then some ((lookup? s lm).getD []) else lookup? s B := by
  unfold ensureKey
  by_cases hs : (lookup? s lm).isSome
  · rw [if_pos hs]
    by_cases h : lm = B
    · subst h
      cases hv : lookup? s lm with
      | some es => simp
      | none => rw [hv] at hs; simp at hs
    · rw [if_neg h]
  · rw [if_neg hs]
    have hnone : lookup? s lm = none := by
      cases hv : lookup? s lm
      · rfl
      · rw [hv] at hs; simp at hs
    by_cases h : lm = B
    · subst h
      rw [lookup?_append, hnone]
      simp [lookup?_cons]
    · rw [if_neg h, lookup?_append]
      cases hv : lookup? s B with
      | some es => rfl
      | none => simp [lookup?_cons, h, lookup?_nil]

theorem storeAppend_cons (k0 : String) (es : List Record) (t : Store)
    (lm : String) (rec : Record) :
    storeAppend ((k0, es) :: t) lm rec =
      (if k0 = lm then (k0, es ++ [rec]) else (k0, es)) :: storeAppend t lm rec := by
  by_cases h : k0 = lm <;> simp [storeAppend, h]

theorem lookup?_storeAppend (s : Store) (lm B : String) (rec : Record) :
    lookup? (storeAppend s lm rec) B =
      if lm = B then (lookup? s B).map (fun es => es ++ [rec])
      else lookup? s B := by
  induction s with
  | nil => by_cases h : lm = B <;> simp [storeAppend, lookup?_nil, h]
  | cons p t ih =>
    obtain ⟨k0, es⟩ := p
    rw [storeAppend_cons]
    by_cases h0 : k0 = lm
    · subst h0
      rw [if_pos rfl]
      by_cases h : k0 = B
      · subst h
        simp [lookup?_cons]
      · simp [lookup?_cons, h, ih]
    · rw [if_neg h0]
      by_cases h : k0 = B
      · subst h
        have h2 : ¬ lm = k0 := fun hh => h0 hh.symm
        simp [lookup?_cons, h2]
      · simp [lookup?_cons, h, ih]

theorem lookup?_add_usage (st : Store) (lm : String) (e : Record)
    (B : String) :
    lookup? (add_usage st lm e).2 B =
      if lm = B then addForModel (lookup? st B) e else lookup? st B := by
  by_cases he : e.isEmpty
  · rw [show (add_usage st lm e).2 = st from by simp [add_usage, he]]
    by_cases h : lm = B <;> simp [addForModel, he, h]
  · cases hf : flatten_usage_entry e with
    | ok fe =>
      have hsnd : (add_usage st lm e).2 = storeAppend (ensureKey st lm) lm fe := by
        simp [add_usage, he, hf]
      rw [hsnd, lookup?_storeAppend, lookup?_ensureKey]
      by_cases h : lm = B
      · subst h
        simp [addForModel, he, hf]
      · simp [h]
    | error err =>
      have hsnd : (add_usage st lm e).2 = ensureKey st lm := by
        simp [add_usage, he, hf]
      rw [hsnd, lookup?_ensureKey]
      by_cases h : lm = B
      · subst h
        simp [addForModel, he, hf]
      · simp [h]

theorem runCalls_lookup (calls : List (String × Record)) (B : String) :
    ∀ st, lookup? (calls.foldl (fun s c => (add_usage s c.1 c.2).2) st) B
      = (calls.filter (fun c => c.1 == B)).foldl
          (fun cur c => addForModel cur c.2) (lookup? st B) := by
  induction calls with
  | nil => intro st; rfl
  | cons c rest ih =>
    intro st
    obtain ⟨lm, e⟩ := c
    rw [List.foldl_cons, ih]
    by_cases h : lm = B
    · subst h
      simp [List.filter_cons, lookup?_add_usage]
    · simp [List.filter_cons, h, lookup?_add_usage]

theorem lookup?_get_total (s : Store) (B : String) :
    lookup? (get_total_tokens s) B = (lookup? s B).map totalFor := by
  unfold get_total_tokens
  exact lookup?_map_values s totalFor B

theorem flatten_ok_ne_nil (e fe : Record) (he : ¬ e.isEmpty = true)
    (hf : flatten_usage_entry e = .ok fe) : fe ≠ [] := by
  have hlen := flatten_ok_length e fe hf
  intro hnil
  rw [hnil] at hlen
  simp [List.isEmpty_iff] at he
  exact he (List.eq_nil_of_length_eq_zero hlen.symm)

theorem storedNonempty_ensureKey (s : Store) (lm : String)
    (h : StoredNonempty s) : StoredNonempty (ensureKey s lm) := by
  unfold ensureKey
  by_cases hs : (lookup? s lm).isSome
  · rw [if_pos hs]; exact h
  · rw [if_neg hs]
    intro p hp
    rcases List.mem_append.mp hp with hp1 | hp2
    · exact h p hp1
    · intro e2 he2
      simp at hp2
      rw [hp2] at he2
      simp at he2

theorem storedNonempty_add_usage (s : Store) (lm : String) (e : Record)
    (h : StoredNonempty s) : StoredNonempty (add_usage s lm e).2 := by
  by_cases he : e.isEmpty
  · rw [show (add_usage s lm e).2 = s from by simp [add_usage, he]]
    exact h
  · have hens := storedNonempty_ensureKey s lm h
    cases hf : flatten_usage_entry e with
    | ok fe =>
      rw [show (add_usage s lm e).2 = storeAppend (ensureKey s lm) lm fe from
        by simp [add_usage, he, hf]]
      intro p hp e2 he2
      obtain ⟨q, hq, hqe⟩ := List.mem_map.mp hp
      by_cases hk : (q.1 == lm) = true
      · rw [if_pos hk] at hqe
        rw [← hqe] at he2
        simp only [List.mem_append, List.mem_singleton] at he2
        rcases he2 with h1 | h1
        · exact hens q hq e2 h1
        · rw [h1]
          exact flatten_ok_ne_nil e fe he hf
      · rw [if_neg hk] at hqe
        rw [← hqe] at he2
        exact hens q hq e2 he2
    | error err =>
      rw [show (add_usage s lm e).2 = ensureKey s lm from
        by simp [add_usage, he, hf]]
      exact hens

theorem storedNonempty_runCalls (calls : List (String × Record)) :
    StoredNonempty (runCalls calls) := by
  unfold runCalls
  have hgen : ∀ st, StoredNonempty st →
      StoredNonempty (calls.foldl (fun st c => (add_usage st c.1 c.2).2) st) := by
    induction calls with
    | nil => intro st h; exact h
    | cons c rest ih =>
      intro st h
      rw [List.foldl_cons]
      exact ih _ (storedNonempty_add_usage st c.1 c.2 h)
  exact hgen [] (by intro p hp; simp at hp)

/-! ### The claims -/

/-- C1 (amended): for every model identifier and every metric key every
occurrence of which in the records stored for that model is a scalar
integer, `get_total_tokens` returns for that key the arithmetic sum of
the occurrences, and the numeric total is independent of the order in
which the records were added. (As stated with nulls included the claim
fails: a key occurring exactly once with value null totals to null, not
0 — see the counterexample.) -/
theorem get_total_tokens_sums_integer_key (s : Store) (lm k : String)
    (es : List Record)
    (hs : lookup? s lm = some es)
    (hnd : ∀ e ∈ es, NodupKeys e)
    (hall : allIntAt es k = true)
    (hocc : vals es k ≠ []) :
    lookup? (get_total_tokens s) lm = some (totalFor es)
    ∧ lookup? (totalFor es) k = some (.vint (intSum (vals es k)))
    ∧ ∀ es2, es.Perm es2 →
        lookup? (totalFor es2) k = some (.vint (intSum (vals es k))) := by
  refine ⟨?_, ?_, ?_⟩
  · rw [lookup?_get_total, hs]
    rfl
  · exact totalFor_lookup_int es k hnd hall hocc
  · intro es2 hperm
    have hvalsperm : (vals es k).Perm (vals es2 k) :=
      hperm.filterMap (fun e => lookup? e k)
    have hnd2 : ∀ e ∈ es2, NodupKeys e :=
      fun e he => hnd e (hperm.mem_iff.mpr he)
    have hall2 : allIntAt es2 k = true := by
      rw [allIntAt, List.all_eq_true] at hall ⊢
      intro e he
      exact hall e (hperm.mem_iff.mpr he)
    have hocc2 : vals es2 k ≠ [] := by
      intro hnil
      exact hocc (List.Perm.eq_nil (hnil ▸ hvalsperm))
    rw [totalFor_lookup_int es2 k hnd2 hall2 hocc2]
    have hsum : intSum (vals es2 k) = intSum (vals es k) :=
      (List.Perm.sum_eq (hvalsperm.map intOf)).symm
    rw [hsum]

/-- C1 witness: records with `prompt_tokens` 1117, 800, 500 for one model
total `prompt_tokens = 2417`. -/
theorem get_total_tokens_sums_integer_key_witness :
    lookup? (totalFor [[("prompt_tokens", Value.vint 1117)],
      [("prompt_tokens", Value.vint 800)],
      [("prompt_tokens", Value.vint 500)]]) "prompt_tokens"
      = some (Value.vint 2417) :=
  ((get_total_tokens_sums_integer_key
    [("gpt-4o-mini", [[("prompt_tokens", Value.vint 1117)],
      [("prompt_tokens", Value.vint 800)],
      [("prompt_tokens", Value.vint 500)]])]
    "gpt-4o-mini" "prompt_tokens" _
    rfl (by decide) rfl (List.cons_ne_nil _ _)).2.1).trans
    (congrArg (fun n => some (Value.vint n)) (by decide))

/-- C1 counterexample: with a single stored record mapping
`prompt_tokens` to null, the total for that key is null, not the
numeric 0 the claim (which treats null as 0) would require. -/
theorem get_total_tokens_null_counterexample :
    lookup? (get_total_tokens [("m", [[("prompt_tokens", Value.vnone)]])]) "m"
      = some [("prompt_tokens", Value.vnone)]
    ∧ lookup? [("prompt_tokens", Value.vnone)] "prompt_tokens"
      = some Value.vnone
    ∧ some Value.vnone ≠ some (Value.vint 0) := by
  refine ⟨?_, rfl, ?_⟩
  · rw [lookup?_get_total]
    show some (totalFor [[("prompt_tokens", Value.vnone)]]) = _
    rw [totalFor]
    show some (merge_usage_entries [] [("prompt_tokens", Value.vnone)]) = _
    simp [merge_usage_entries]
  · intro h
    injection h with h2
    cases h2

/-- C2: merging two non-empty records where exactly one side maps `k` to
a nested record keeps the nested-record value verbatim, whichever
argument it came from; the scalar is discarded. -/
theorem merge_prefers_nested_record (a b : Record) (k : String)
    (hna : NodupKeys a) (ha : a ≠ []) (hb : b ≠ []) :
    (∀ d s, lookup? a k = some (.vdict d) → lookup? b k = some s →
      s.isDict = false →
      lookup? (merge_usage_entries a b) k = some (.vdict d))
    ∧ (∀ d s, lookup? a k = some s → s.isDict = false →
      lookup? b k = some (.vdict d) →
      lookup? (merge_usage_entries a b) k = some (.vdict d)) := by
  constructor
  · intro d s h1 h2 hs
    rw [lookup?_merge a b hna k, h1, h2]
    show some (mergeValue (.vdict d) s) = _
    rcases s with n | bb | st | _ | d2 <;>
      simp [mergeValue, Value.isDict] at hs ⊢
  · intro d s h1 hs h2
    rw [lookup?_merge a b hna k, h1, h2]
    show some (mergeValue s (.vdict d)) = _
    rcases s with n | bb | st | _ | d2 <;>
      simp [mergeValue, Value.isDict] at hs ⊢

/-- C2 witness: `{"tokens": {"total": 100}}` merged with
`{"tokens": 150}` in either order keeps the nested record. -/
theorem merge_prefers_nested_record_witness :
    lookup? (merge_usage_entries
      [("tokens", Value.vdict [("total", Value.vint 100)])]
      [("tokens", Value.vint 150)]) "tokens"
      = some (Value.vdict [("total", Value.vint 100)])
    ∧ lookup? (merge_usage_entries [("tokens", Value.vint 150)]
      [("tokens", Value.vdict [("total", Value.vint 100)])]) "tokens"
      = some (Value.vdict [("total", Value.vint 100)]) :=
  ⟨(merge_prefers_nested_record _ _ "tokens" (by decide)
      (List.cons_ne_nil _ _) (List.cons_ne_nil _ _)).1 _ _ rfl rfl rfl,
   (merge_prefers_nested_record _ _ "tokens" (by decide)
      (List.cons_ne_nil _ _) (List.cons_ne_nil _ _)).2 _ _ rfl rfl rfl⟩

/-- C3 counterexample: the claim promises the non-null operand when
addition is not meaningful, but merging `{"k": "text"}` (first argument)
with `{"k": null}` (second argument) yields `0`, not `"text"`: after
null-to-0 coercion the fallback always keeps the second operand. -/
theorem merge_mismatch_counterexample :
    lookup? (merge_usage_entries [("k", Value.vstr "text")]
      [("k", Value.vnone)]) "k" = some (Value.vint 0)
    ∧ some (Value.vint 0) ≠ some (Value.vstr "text") := by
  constructor
  · rw [lookup?_merge _ _ (by decide) _]
    show some (mergeValue (Value.vstr "text") Value.vnone) = _
    simp [mergeValue, Value.isBool, truthy, coerceNull, addOrPrefer]
  · intro h
    injection h with h2
    cases h2

/-- C3 (amended): for two non-empty records both mapping `k` to
non-boolean scalars whose Python addition is not meaningful (after
null-to-0 coercion one side is numeric and the other text), the merge
maps `k` to the second argument's value with null coerced to 0; the
first argument's value is discarded, even when it is the only non-null
operand. -/
theorem merge_type_mismatch_keeps_second (a b : Record) (k : String)
    (hna : NodupKeys a) (v r : Value)
    (hva : lookup? a k = some v) (hrb : lookup? b k = some r)
    (hvd : v.isDict = false) (hrd : r.isDict = false)
    (hvb : v.isBool = false) (hrbo : r.isBool = false)
    (hmix : (coerceNull v).isStr ≠ (coerceNull r).isStr) :
    lookup? (merge_usage_entries a b) k = some (coerceNull r) := by
  rw [lookup?_merge a b hna k, hva, hrb]
  show some (mergeValue v r) = _
  rcases v with n | bb | s | _ | d <;> rcases r with n2 | bb2 | s2 | _ | d2 <;>
    simp [Value.isDict, Value.isBool, Value.isStr, coerceNull]
      at hvd hrd hvb hrbo hmix <;>
    simp [mergeValue, Value.isBool, addOrPrefer, coerceNull]

/-- C3 witness: merging `{"k": 5}` with `{"k": "text"}` keeps the second
argument's text. -/
theorem merge_type_mismatch_keeps_second_witness :
    lookup? (merge_usage_entries [("k", Value.vint 5)]
      [("k", Value.vstr "text")]) "k" = some (Value.vstr "text") :=
  merge_type_mismatch_keeps_second [("k", Value.vint 5)]
    [("k", Value.vstr "text")] "k" (by decide)
    (Value.vint 5) (Value.vstr "text")
    rfl rfl rfl rfl rfl rfl (by decide)

/-- C4: `track_usage` yields a fresh empty tracker to the body, runs the
body against the ambient settings with that tracker published, and the
resulting ambient settings state equals the previous one exactly, for
every body outcome — normal (`Except.ok`) or raised (`Except.error`). -/
theorem track_usage_restores_settings (ρ ε α : Type) (s : Settings ρ)
    (body : Store → Settings ρ → Except ε α × Settings ρ) :
    (track_usage s body).2 = s
    ∧ (track_usage s body).1
        = (body [] { s with usage_tracker := some [] }).1 :=
  ⟨rfl, rfl⟩

/-- C5: `add_usage` with an empty record leaves the store entirely
unchanged (raising nothing and creating no entry), and consequently no
stored sequence produced by any sequence of `add_usage` calls contains
an empty record. -/
theorem add_usage_empty_noop :
    (∀ (s : Store) (lm : String), add_usage s lm [] = (none, s))
    ∧ (∀ (calls : List (String × Record)) (lm : String) (es : List Record),
        lookup? (runCalls calls) lm = some es → ∀ e ∈ es, e ≠ []) := by
  constructor
  · intro s lm
    simp [add_usage]
  · intro calls lm es hlk e he
    obtain ⟨p, hp, hpe⟩ := lookup?_some_mem _ _ _ hlk
    exact storedNonempty_runCalls calls p hp e (by rw [hpe]; exact he)

/-- C5 witness: the no-empty-record consequence at a concrete store. -/
theorem add_usage_empty_noop_witness :
    ([("prompt_tokens", Value.vint 1)] : Record) ≠ [] :=
  add_usage_empty_noop.2 [("m", [("prompt_tokens", Value.vint 1)])] "m"
    [[("prompt_tokens", Value.vint 1)]] rfl
    [("prompt_tokens", Value.vint 1)] (by simp)

/-- C6: the empty record (or an absent/`None` operand) is a two-sided
identity for the merge on non-empty records, returning a record equal to
`x` itself, which in turn equals any normalized copy of `x`. -/
theorem merge_empty_identity (x : Record) (hx : x ≠ []) (hnd : NodupKeys x) :
    merge_usage_entries x [] = x
    ∧ merge_usage_entries [] x = x
    ∧ merge_usage_entries_opt (some x) none = Except.ok x
    ∧ merge_usage_entries_opt none (some x) = Except.ok x
    ∧ ∀ fe, flatten_usage_entry x = .ok fe → fe = x := by
  have hxe : ¬ x.isEmpty = true := by simpa [List.isEmpty_iff] using hx
  refine ⟨?_, ?_, ?_, rfl, fun fe hfe => flatten_ok_eq x fe hnd hfe⟩
  · simp [merge_usage_entries, hxe]
  · simp [merge_usage_entries]
  · simp [merge_usage_entries_opt, hxe]

/-- C6 witness: identity at a concrete non-empty record. -/
theorem merge_empty_identity_witness :
    merge_usage_entries [("prompt_tokens", Value.vint 5)] []
      = [("prompt_tokens", Value.vint 5)] :=
  (merge_empty_identity _ (List.cons_ne_nil _ _) (by decide)).1

/-- C7: totals computed for model `B` depend only on the subsequence of
`add_usage` calls recorded for `B`: two trackers whose call sequences
for `B` coincide report the same total for `B`, whatever was recorded
under other model identifiers. -/
theorem totals_isolated_per_model (calls1 calls2 : List (String × Record))
    (B : String)
    (h : calls1.filter (fun c => c.1 == B)
      = calls2.filter (fun c => c.1 == B)) :
    lookup? (get_total_tokens (runCalls calls1)) B
      = lookup? (get_total_tokens (runCalls calls2)) B := by
  rw [lookup?_get_total, lookup?_get_total]
  unfold runCalls
  rw [runCalls_lookup calls1 B [], runCalls_lookup calls2 B [], h]

/-- C7 witness: adding usage for model `A` does not change the total
reported for model `B`. -/
theorem totals_isolated_per_model_witness :
    lookup? (get_total_tokens (runCalls
      [("A", [("x", Value.vint 1)]), ("B", [("y", Value.vint 2)])])) "B"
      = lookup? (get_total_tokens (runCalls [("B", [("y", Value.vint 2)])])) "B" :=
  totals_isolated_per_model _ _ "B" rfl

/-- C8: `get_total_tokens` is a pure read of the store: as a state
transformer it leaves `usage_data` unchanged, and repeated calls with no
intervening `add_usage` return equal results. -/
theorem get_total_tokens_read_only (s : Store) :
    (get_total_tokens_st s).2 = s
    ∧ (get_total_tokens_st ((get_total_tokens_st s).2)).1
        = (get_total_tokens_st s).1 :=
  ⟨rfl, rfl⟩

/-- C9 counterexample: `add_usage` with a record mapping the reserved
detail key `completion_tokens_details` to the integer 5 raises a
`TypeError` (from `dict(5)` in `_flatten_usage_entry`) instead of
completing normally. -/
theorem add_usage_raises_counterexample :
    (add_usage [] "openai/gpt-4o-mini"
      [("completion_tokens_details", Value.vint 5)]).1 = some PyErr.typeError
    ∧ (add_usage [] "openai/gpt-4o-mini"
      [("completion_tokens_details", Value.vint 5)]).1 ≠ none := by
  refine ⟨rfl, ?_⟩
  intro h
  cases h

/-- C9 (amended): `add_usage` completes normally on every record whose
truthy values under the two reserved detail keys are nested records (in
particular on all records avoiding those keys); type-inconsistent
scalars elsewhere are absorbed by the merge policy, and
`get_total_tokens` (a total function in this model) never raises. -/
theorem add_usage_no_error_when_details_are_records (st : Store)
    (lm : String) (e : Record) (h : detailOk e = true) :
    (add_usage st lm e).1 = none := by
  by_cases he : e.isEmpty
  · simp [add_usage, he]
  · obtain ⟨fe, hfe⟩ := flatten_ok_of_detailOk e h
    simp [add_usage, he, hfe]

/-- C9 witness: a record with a well-formed detail field and a string
where a number might be expected is accepted without error. -/
theorem add_usage_no_error_witness :
    (add_usage [] "m" [("prompt_tokens", Value.vstr "oops"),
      ("prompt_tokens_details", Value.vdict [("cached_tokens", Value.vint 1)])]).1
      = none :=
  add_usage_no_error_when_details_are_records _ _ _ rfl

/-- C10: when both records map `k` to strings, the merged value is the
concatenation of `b`'s string followed by `a`'s string, and with both
strings non-empty it equals neither operand. -/
theorem merge_concatenates_strings (a b : Record) (k : String)
    (hna : NodupKeys a) (s1 s2 : String)
    (h1 : lookup? a k = some (.vstr s1))
    (h2 : lookup? b k = some (.vstr s2)) :
    lookup? (merge_usage_entries a b) k = some (.vstr (s2 ++ s1))
    ∧ (s1 ≠ "" → s2 ≠ "" →
        Value.vstr (s2 ++ s1) ≠ Value.vstr s1
        ∧ Value.vstr (s2 ++ s1) ≠ Value.vstr s2) := by
  constructor
  · rw [lookup?_merge a b hna k, h1, h2]
    show some (mergeValue (.vstr s1) (.vstr s2)) = _
    simp [mergeValue, Value.isBool, coerceNull, addOrPrefer]
  · intro hs1 hs2
    constructor
    · intro hh
      injection hh with h3
      have hlen : s2.length + s1.length = s1.length := by
        have h4 := congrArg String.length h3
        simpa [String.length_append] using h4
      have hz : s2.length = 0 := by omega
      refine hs2 ?_
      cases s2 with
      | mk data =>
        simp [String.length] at hz
        simp [hz]
    · intro hh
      injection hh with h3
      have hlen : s2.length + s1.length = s2.length := by
        have h4 := congrArg String.length h3
        simpa [String.length_append] using h4
      have hz : s1.length = 0 := by omega
      refine hs1 ?_
      cases s1 with
      | mk data =>
        simp [String.length] at hz
        simp [hz]

/-- C10 witness: `"ab"` (second argument) and `"xy"` (first argument)
concatenate to `"abxy"`, which differs from both operands. -/
theorem merge_concatenates_strings_witness :
    lookup? (merge_usage_entries [("model", Value.vstr "xy")]
      [("model", Value.vstr "ab")]) "model" = some (Value.vstr "abxy")
    ∧ Value.vstr "abxy" ≠ Value.vstr "xy"
    ∧ Value.vstr "abxy" ≠ Value.vstr "ab" :=
  ⟨(merge_concatenates_strings [("model", Value.vstr "xy")]
      [("model", Value.vstr "ab")] "model" (by decide) "xy" "ab" rfl rfl).1,
   (merge_concatenates_strings [("model", Value.vstr "xy")]
      [("model", Value.vstr "ab")] "model" (by decide) "xy" "ab" rfl rfl).2
     (by decide) (by decide)⟩

end DspyUsage
